import Mathlib

/-!
Verification development for the fetch engine of `socialgraphs2023f-project`
(`src/project/scraper.py`, `src/project/utils.py`).

The continuation runner `send_urlib_request_async`, the scheduler
`handle_queries` and the list utilities `chunks` / `chunk_list` / `flatten`
are embedded below.  Network traffic is abstracted into a per-request oracle:
each issued request either yields a decoded JSON body that the response
handler turns into `(payload, continuation)` (`ReqOutcome.ok`), or raises
inside the runner's `try` block — a read/decode/handler failure
(`ReqOutcome.err`).  Connection establishment is modelled as always
succeeding, so every loop iteration corresponds to one issued GET.
-/

namespace Scraper

/-- JSON-like values: payloads handled by the runner are Python lists,
dicts, strings or numbers.  Dicts are insertion-ordered association lists,
matching Python dict semantics. -/
inductive JVal where
  | str : String → JVal
  | int : Int → JVal
  | arr : List JVal → JVal
  | obj : List (String × JVal) → JVal

/-- Python dict assignment `d[k] = v`: overwrite in place when the key is
present (keeping its position), otherwise append at the end. -/
def dictInsert (d : List (String × JVal)) (k : String) (v : JVal) :
    List (String × JVal) :=
  if d.any (fun p => p.1 = k) then
    d.map (fun p => if p.1 = k then (k, v) else p)
  else
    d ++ [(k, v)]

/-- Python dict union `d1 |= d2`: keys of `d2` are inserted left to right,
later keys overwrite earlier ones. -/
def dictUnion (d1 d2 : List (String × JVal)) : List (String × JVal) :=
  d2.foldl (fun acc p => dictInsert acc p.1 p.2) d1

/-- The merge step of `send_urlib_request_async` (scraper.py lines 200-205),
executed when `request_count != 1`.  The branch is chosen by the runtime type
of the incoming chunk `curr`:
`list` → `results.extend(curr_results)`; `dict` → `results |= curr_results`;
anything else prints a message and leaves `results` unchanged.
When the established shape of `results` conflicts with the chunk's shape the
Python call raises (`dict` has no `extend`, `list` has no `|=`), the bare
`except` on line 206 swallows it, and `results` is left unchanged. -/
def mergeResults (results curr : JVal) : JVal :=
  match curr with
  | .arr items =>
      match results with
      | .arr acc => .arr (acc ++ items)
      | _ => results
  | .obj fields =>
      match results with
      | .obj acc => .obj (dictUnion acc fields)
      | _ => results
  | _ => results

/-- A query descriptor as built by the query generators:
`{"query": ..., "name": ...}`. -/
structure QueryInfo where
  query : String
  name : Option String
deriving DecidableEq

/-- Observable outcome of one issued request, as seen from inside the
runner's `try` block: either the handler returns `(payload, contin)`, or an
exception is raised while reading/decoding the body or inside the handler
(before `contin` is reassigned on line 195). -/
inductive ReqOutcome where
  | ok : JVal → Option String → ReqOutcome
  | err : ReqOutcome

/-- The runner's loop state: `results`, `request_count`, `contin`
(scraper.py lines 174-176). -/
structure RunState where
  results : JVal
  requestCount : Nat
  contin : Option String

/-- `curr_query` (scraper.py lines 183-186): the base query on the first
call, base query concatenated with the continuation string thereafter. -/
def currQuery (query : String) (contin : Option String) : String :=
  match contin with
  | some c => query ++ c
  | none => query

/-- Effect of one loop iteration's body on the state, given the request's
outcome.  `request_count` is incremented at the top of the loop (line 181).
On success the first payload replaces `results` (`request_count == 1`,
line 197) and later payloads are merged by shape; `contin` is reassigned
from the handler's return.  On an exception the bare `except` (line 206)
discards it: `results` and `contin` keep their previous values. -/
def applyOutcome (o : ReqOutcome) (st : RunState) : RunState :=
  match o with
  | .err => { st with requestCount := st.requestCount + 1 }
  | .ok payload tok =>
      { results := if st.requestCount + 1 = 1 then payload
                   else mergeResults st.results payload,
        requestCount := st.requestCount + 1,
        contin := tok }

/-- Result of running the loop against a finite oracle of request outcomes:
either the loop condition became false (`done`, carrying the accumulated
value, the trace of issued request URLs, and the final request count), or
the oracle was exhausted while the loop condition still held (`pending`) —
the loop would keep issuing requests. -/
inductive RunOutcome where
  | done : JVal → List String → Nat → RunOutcome
  | pending : RunState → List String → RunOutcome

/-- The `while contin is not None or request_count == 0` loop of
`send_urlib_request_async` (scraper.py lines 180-207), consuming one oracle
entry per issued request and recording the URL of every issued request. -/
def runLoop (query : String) :
    List ReqOutcome → RunState → List String → RunOutcome
  | [], st, urls =>
      if st.contin = none ∧ st.requestCount ≠ 0 then
        RunOutcome.done st.results urls st.requestCount
      else
        RunOutcome.pending st urls
  | o :: rest, st, urls =>
      if st.contin = none ∧ st.requestCount ≠ 0 then
        RunOutcome.done st.results urls st.requestCount
      else
        runLoop query rest (applyOutcome o st)
          (urls ++ [currQuery query st.contin])

/-- Initial loop state (scraper.py lines 174-176):
`results = []`, `request_count = 0`, `contin = None`. -/
def initState : RunState := ⟨JVal.arr [], 0, none⟩

/-- Lines 210-211: if the descriptor carries a name, wrap the accumulated
result as the single-entry dict `{name: results}`. -/
def wrapName (name : Option String) (r : JVal) : JVal :=
  match name with
  | some n => .obj [(n, r)]
  | none => r

/-- `send_urlib_request_async(query_info, response_handler)` against an
oracle of per-request outcomes. -/
def send_urlib_request_async (qi : QueryInfo) (outcomes : List ReqOutcome) :
    RunOutcome :=
  match runLoop qi.query outcomes initState [] with
  | .done r urls rc => .done (wrapName qi.name r) urls rc
  | .pending st urls => .pending st urls

/-- Whether a run outcome is a completed run. -/
def isDone : RunOutcome → Bool
  | .done _ _ _ => true
  | .pending _ _ => false

/-- `N_MAX_WORKERS` (scraper.py line 225): descriptor count up to which the
scheduler runs every descriptor concurrently via `gather`. -/
def N_MAX_WORKERS : Nat := 200

/-- `N_WORKERS` (scraper.py line 233): size of the fixed worker pool used
above the ceiling. -/
def N_WORKERS : Nat := 50

/-- State of the pooled branch of `handle_queries` (scraper.py lines
232-257): the FIFO `asyncio.Queue` of descriptors not yet taken, the
descriptors currently being processed by workers, and the shared
`results_p` list of appended outcomes. -/
structure PoolState where
  queue : List QueryInfo
  inFlight : List QueryInfo
  results : List RunOutcome

/-- Atomic transitions of the pooled scheduler, parametrised by the
deterministic per-descriptor outcome `f` (the value of
`send_urlib_request_async` on that descriptor under its response oracle).
A worker either takes the head of the FIFO queue (`queue.get()`, possible
only while fewer than `N_WORKERS` descriptors are in flight), or finishes
its current descriptor, appending the outcome to the shared results list
(`results_p.append(...)` followed by `queue.task_done()`).  Interleaving of
workers is arbitrary, hence the relation. -/
inductive PoolStep (f : QueryInfo → RunOutcome) : PoolState → PoolState → Prop
  | take (q : QueryInfo) (rest infl : List QueryInfo)
      (res : List RunOutcome) :
      infl.length < N_WORKERS →
      PoolStep f ⟨q :: rest, infl, res⟩ ⟨rest, infl ++ [q], res⟩
  | finish (queue pre : List QueryInfo) (q : QueryInfo)
      (post : List QueryInfo) (res : List RunOutcome) :
      PoolStep f ⟨queue, pre ++ q :: post, res⟩
        ⟨queue, pre ++ post, res ++ [f q]⟩

/-- Zero or more pooled-scheduler transitions. -/
def PoolReaches (f : QueryInfo → RunOutcome) : PoolState → PoolState → Prop :=
  Relation.ReflTransGen (PoolStep f)

/-- Initial pooled state: all descriptors queued, no worker busy, empty
`results_p`. -/
def poolInit (queries : List QueryInfo) : PoolState := ⟨queries, [], []⟩

/-- A complete pooled run: `queue.join()` returns once every queued item
has been taken and acknowledged, i.e. the queue is drained and no
descriptor is still in flight; `results_p` is then returned. -/
def PoolComplete (f : QueryInfo → RunOutcome) (queries : List QueryInfo)
    (results : List RunOutcome) : Prop :=
  ∃ s : PoolState, PoolReaches f (poolInit queries) s ∧
    s.queue = [] ∧ s.inFlight = [] ∧ s.results = results

/-- `handle_queries(queries, response_handler)` (scraper.py lines 223-257)
as a relation between the input descriptor list and a returned result list,
given the deterministic per-descriptor runner outcome `f`.  `handle_queries`
returns only when every awaited runner completes, hence the `isDone`
condition.  At or below the ceiling it gathers one runner per descriptor,
returning their results in input order; above the ceiling it runs the
worker pool to completion. -/
def HandleQueries (f : QueryInfo → RunOutcome) (queries : List QueryInfo)
    (results : List RunOutcome) : Prop :=
  (∀ q ∈ queries, isDone (f q) = true) ∧
  (if queries.length ≤ N_MAX_WORKERS then results = queries.map f
   else PoolComplete f queries results)

/-- Python's `range(start, stop, step)` for a nonnegative step; for
`step = 0` Python raises, modelled here as the empty range. -/
def pyRange (start stop step : Nat) : List Nat :=
  if _h : 0 < step ∧ start < stop then
    start :: pyRange (start + step) stop step
  else
    []
termination_by stop - start
decreasing_by omega

/-- `chunks(lst, n)` (scraper.py lines 18-21): the slices `lst[i:i + n]`
for `i in range(0, len(lst), n)`. -/
def chunks {α : Type} (lst : List α) (n : Nat) : List (List α) :=
  (pyRange 0 lst.length n).map (fun i => (lst.drop i).take n)

/-- `chunk_list(list, chunk_size)` (utils.py lines 30-38): appends
`list[x:x+chunk_size]` for `i in range(0, len(list), chunk_size)`. -/
def chunk_list {α : Type} (lst : List α) (chunk_size : Nat) :
    List (List α) :=
  (pyRange 0 lst.length chunk_size).map
    (fun i => (lst.drop i).take chunk_size)

/-- `flatten(l)` (scraper.py lines 23-24 and utils.py lines 11-12):
`[item for sublist in l for item in sublist]`. -/
def flatten {α : Type} (l : List (List α)) : List α := l.flatten

/-- Oracle for an error-free multi-page run: the handler returns payloads
`ps = p1 … pk` with continuation tokens `ts = t1 … t(k-1)` on the first
`k - 1` responses and `None` on the last (intended use:
`ps.length = ts.length + 1`). -/
def okOutcomes : List JVal → List String → List ReqOutcome
  | p :: ps, t :: ts => ReqOutcome.ok p (some t) :: okOutcomes ps ts
  | p :: _, [] => [ReqOutcome.ok p none]
  | [], _ => []

/-- Concrete one-page runner outcome used by witnesses: every descriptor
completes after a single successful request with an empty list payload. -/
def oneShotRunner : QueryInfo → RunOutcome :=
  fun qi => send_urlib_request_async qi [ReqOutcome.ok (JVal.arr []) none]

/-- Concrete completed outcome keyed by the descriptor's query string,
used to distinguish result orders in witnesses. -/
def strRunner : QueryInfo → RunOutcome :=
  fun qi => RunOutcome.done (JVal.str qi.query) [] 1

/-! Equation lemmas for the runner loop. -/

theorem runLoop_exit (q : String) (outcomes : List ReqOutcome)
    (st : RunState) (urls : List String)
    (h1 : st.contin = none) (h2 : st.requestCount ≠ 0) :
    runLoop q outcomes st urls
      = RunOutcome.done st.results urls st.requestCount := by
  cases outcomes <;> simp [runLoop, h1, h2]

theorem runLoop_nil_pending (q : String) (st : RunState) (urls : List String)
    (h : ¬(st.contin = none ∧ st.requestCount ≠ 0)) :
    runLoop q [] st urls = RunOutcome.pending st urls := by
  simp only [runLoop, if_neg h]

theorem runLoop_cons_continue (q : String) (o : ReqOutcome)
    (rest : List ReqOutcome) (st : RunState) (urls : List String)
    (h : ¬(st.contin = none ∧ st.requestCount ≠ 0)) :
    runLoop q (o :: rest) st urls
      = runLoop q rest (applyOutcome o st)
          (urls ++ [currQuery q st.contin]) := by
  conv_lhs => rw [runLoop]
  rw [if_neg h]

/-- Replaying errors: while `contin` holds a token, every swallowed
exception leaves the state unchanged apart from `request_count`, so the
loop keeps reissuing the same URL and never exits. -/
theorem runLoop_err_replay (q t : String) (r : JVal) :
    ∀ (n rc : Nat) (urls : List String),
      runLoop q (List.replicate n ReqOutcome.err) ⟨r, rc, some t⟩ urls
        = RunOutcome.pending ⟨r, rc + n, some t⟩
            (urls ++ List.replicate n (q ++ t)) := by
  intro n
  induction n with
  | zero => intro rc urls; simp [runLoop]
  | succ n ih =>
      intro rc urls
      rw [List.replicate_succ,
        runLoop_cons_continue q ReqOutcome.err _ _ _ (by simp)]
      show runLoop q _ ⟨r, rc + 1, some t⟩ (urls ++ [q ++ t]) = _
      rw [ih (rc + 1) (urls ++ [q ++ t])]
      congr 1
      · congr 1
        omega
      · simp [List.replicate_succ]

/-- Error-free runs: given payloads `p1 … pk` and tokens `t1 … t(k-1)`,
the loop issues exactly `k` requests — the current URL first, then
`q ++ ti` for each token — and completes with `request_count` increased
by `k`. -/
theorem runLoop_okOutcomes_trace (q : String) :
    ∀ (ts : List String) (ps : List JVal) (st : RunState)
      (urls : List String),
      ps.length = ts.length + 1 →
      ¬(st.contin = none ∧ st.requestCount ≠ 0) →
      ∃ v, runLoop q (okOutcomes ps ts) st urls
        = RunOutcome.done v
            (urls ++ currQuery q st.contin :: ts.map (fun t => q ++ t))
            (st.requestCount + ps.length) := by
  intro ts
  induction ts with
  | nil =>
      intro ps st urls hlen hc
      cases ps with
      | nil => simp at hlen
      | cons p ps' =>
        cases ps' with
        | cons p2 ps2 => simp at hlen
        | nil =>
          refine ⟨(applyOutcome (ReqOutcome.ok p none) st).results, ?_⟩
          rw [show okOutcomes [p] [] = [ReqOutcome.ok p none] from rfl,
            runLoop_cons_continue _ _ _ _ _ hc,
            runLoop_exit _ _ _ _ rfl (by simp [applyOutcome])]
          simp [applyOutcome]
  | cons t ts' ih =>
      intro ps st urls hlen hc
      cases ps with
      | nil => simp at hlen
      | cons p ps' =>
        have hlen' : ps'.length = ts'.length + 1 := by simpa using hlen
        rw [show okOutcomes (p :: ps') (t :: ts')
              = ReqOutcome.ok p (some t) :: okOutcomes ps' ts' from rfl,
          runLoop_cons_continue _ _ _ _ _ hc]
        obtain ⟨v, hv⟩ := ih ps' (applyOutcome (ReqOutcome.ok p (some t)) st)
          (urls ++ [currQuery q st.contin]) hlen' (by simp [applyOutcome])
        refine ⟨v, ?_⟩
        rw [hv]
        congr 1
        · simp [applyOutcome, currQuery]
        · simp [applyOutcome]
          omega

/-- Error-free runs of list-shaped payloads accumulate by ordered
concatenation. -/
theorem runLoop_okOutcomes_arr (q : String) :
    ∀ (ts : List String) (ls : List (List JVal)) (t : String)
      (acc : List JVal) (rc : Nat) (urls : List String),
      ls.length = ts.length + 1 →
      ∃ urls' rc', runLoop q (okOutcomes (ls.map JVal.arr) ts)
          ⟨JVal.arr acc, rc + 1, some t⟩ urls
        = RunOutcome.done (JVal.arr (acc ++ flatten ls)) urls' rc' := by
  intro ts
  induction ts with
  | nil =>
      intro ls t acc rc urls hlen
      cases ls with
      | nil => simp at hlen
      | cons l ls' =>
        cases ls' with
        | cons l2 ls2 => simp at hlen
        | nil =>
          refine ⟨urls ++ [currQuery q (some t)], rc + 1 + 1, ?_⟩
          rw [show okOutcomes ([l].map JVal.arr) []
                = [ReqOutcome.ok (JVal.arr l) none] from rfl,
            runLoop_cons_continue _ _ _ _ _ (by simp),
            runLoop_exit _ _ _ _ rfl (by simp [applyOutcome])]
          simp only [applyOutcome]
          rw [if_neg (by omega)]
          simp [mergeResults, flatten]
  | cons t' ts' ih =>
      intro ls t acc rc urls hlen
      cases ls with
      | nil => simp at hlen
      | cons l ls' =>
        have hlen' : ls'.length = ts'.length + 1 := by simpa using hlen
        rw [show okOutcomes ((l :: ls').map JVal.arr) (t' :: ts')
              = ReqOutcome.ok (JVal.arr l) (some t')
                  :: okOutcomes (ls'.map JVal.arr) ts' from rfl,
          runLoop_cons_continue _ _ _ _ _ (by simp)]
        have hstep : applyOutcome (ReqOutcome.ok (JVal.arr l) (some t'))
            ⟨JVal.arr acc, rc + 1, some t⟩
            = ⟨JVal.arr (acc ++ l), (rc + 1) + 1, some t'⟩ := by
          simp only [applyOutcome]
          rw [if_neg (by omega)]
          simp [mergeResults]
        rw [hstep]
        obtain ⟨u', r', hr⟩ := ih ls' t' (acc ++ l) (rc + 1)
          (urls ++ [currQuery q (some t)]) hlen'
        refine ⟨u', r', ?_⟩
        rw [hr]
        simp [flatten]

/-- Error-free runs of dict-shaped payloads accumulate by left-to-right
key union, later keys overwriting earlier ones. -/
theorem runLoop_okOutcomes_obj (q : String) :
    ∀ (ts : List String) (ds : List (List (String × JVal))) (t : String)
      (acc : List (String × JVal)) (rc : Nat) (urls : List String),
      ds.length = ts.length + 1 →
      ∃ urls' rc', runLoop q (okOutcomes (ds.map JVal.obj) ts)
          ⟨JVal.obj acc, rc + 1, some t⟩ urls
        = RunOutcome.done (JVal.obj (ds.foldl dictUnion acc)) urls' rc' := by
  intro ts
  induction ts with
  | nil =>
      intro ds t acc rc urls hlen
      cases ds with
      | nil => simp at hlen
      | cons d ds' =>
        cases ds' with
        | cons d2 ds2 => simp at hlen
        | nil =>
          refine ⟨urls ++ [currQuery q (some t)], rc + 1 + 1, ?_⟩
          rw [show okOutcomes ([d].map JVal.obj) []
                = [ReqOutcome.ok (JVal.obj d) none] from rfl,
            runLoop_cons_continue _ _ _ _ _ (by simp),
            runLoop_exit _ _ _ _ rfl (by simp [applyOutcome])]
          simp only [applyOutcome]
          rw [if_neg (by omega)]
          simp [mergeResults]
  | cons t' ts' ih =>
      intro ds t acc rc urls hlen
      cases ds with
      | nil => simp at hlen
      | cons d ds' =>
        have hlen' : ds'.length = ts'.length + 1 := by simpa using hlen
        rw [show okOutcomes ((d :: ds').map JVal.obj) (t' :: ts')
              = ReqOutcome.ok (JVal.obj d) (some t')
                  :: okOutcomes (ds'.map JVal.obj) ts' from rfl,
          runLoop_cons_continue _ _ _ _ _ (by simp)]
        have hstep : applyOutcome (ReqOutcome.ok (JVal.obj d) (some t'))
            ⟨JVal.obj acc, rc + 1, some t⟩
            = ⟨JVal.obj (dictUnion acc d), (rc + 1) + 1, some t'⟩ := by
          simp only [applyOutcome]
          rw [if_neg (by omega)]
          simp [mergeResults]
        rw [hstep]
        obtain ⟨u', r', hr⟩ := ih ds' t' (dictUnion acc d) (rc + 1)
          (urls ++ [currQuery q (some t)]) hlen'
        exact ⟨u', r', hr⟩

/-! Invariants of the pooled scheduler. -/

/-- One pool transition preserves the multiset of per-descriptor outcomes
split across queue, in-flight work, and appended results. -/
theorem poolStep_multiset {f : QueryInfo → RunOutcome} {s t : PoolState}
    (h : PoolStep f s t) :
    (↑(t.queue.map f) + ↑(t.inFlight.map f) + ↑t.results
        : Multiset RunOutcome)
      = ↑(s.queue.map f) + ↑(s.inFlight.map f) + ↑s.results := by
  cases h with
  | take q rest infl res hlt =>
      simp only [List.map_append, List.map_cons, List.map_nil,
        ← Multiset.coe_add, ← Multiset.cons_coe, Multiset.coe_nil,
        ← Multiset.singleton_add]
      abel
  | finish queue pre q post res =>
      simp only [List.map_append, List.map_cons, List.map_nil,
        ← Multiset.coe_add, ← Multiset.cons_coe, Multiset.coe_nil,
        ← Multiset.singleton_add]
      abel

/-- The outcome-multiset invariant holds along any pool execution. -/
theorem poolReaches_multiset {f : QueryInfo → RunOutcome} {s t : PoolState}
    (h : PoolReaches f s t) :
    (↑(t.queue.map f) + ↑(t.inFlight.map f) + ↑t.results
        : Multiset RunOutcome)
      = ↑(s.queue.map f) + ↑(s.inFlight.map f) + ↑s.results := by
  have h' : Relation.ReflTransGen (PoolStep f) s t := h
  clear h
  induction h' with
  | refl => rfl
  | tail _ hstep ih => rw [poolStep_multiset hstep, ih]

/-- A complete pooled run returns a permutation of the per-descriptor
outcomes of the input list: nothing dropped, nothing duplicated. -/
theorem poolComplete_perm {f : QueryInfo → RunOutcome}
    {queries : List QueryInfo} {results : List RunOutcome}
    (h : PoolComplete f queries results) :
    results.Perm (queries.map f) := by
  obtain ⟨s, hr, hq, hif, hres⟩ := h
  have hinv := poolReaches_multiset hr
  rw [hq, hif, hres] at hinv
  simp only [poolInit, List.map_nil, Multiset.coe_nil] at hinv
  rw [← Multiset.coe_eq_coe]
  simpa using hinv

/-- The pool never has more than `N_WORKERS` descriptors in flight. -/
theorem poolStep_inFlight {f : QueryInfo → RunOutcome} {s t : PoolState}
    (h : PoolStep f s t) (h0 : s.inFlight.length ≤ N_WORKERS) :
    t.inFlight.length ≤ N_WORKERS := by
  cases h with
  | take q rest infl res hlt => simpa using hlt
  | finish queue pre q post res => simp at h0 ⊢; omega

theorem poolReaches_inFlight {f : QueryInfo → RunOutcome} {s t : PoolState}
    (h : PoolReaches f s t) (h0 : s.inFlight.length ≤ N_WORKERS) :
    t.inFlight.length ≤ N_WORKERS := by
  have h' : Relation.ReflTransGen (PoolStep f) s t := h
  clear h
  induction h' with
  | refl => exact h0
  | tail _ hstep ih => exact poolStep_inFlight hstep ih

/-- Descriptors are consumed from the front of the FIFO queue: at any
point the remaining queue is a suffix of the starting queue. -/
theorem poolStep_suffix {f : QueryInfo → RunOutcome} {s t : PoolState}
    (h : PoolStep f s t) : t.queue.IsSuffix s.queue := by
  cases h with
  | take q rest infl res hlt => exact ⟨[q], rfl⟩
  | finish queue pre q post res => exact List.suffix_refl _

theorem poolReaches_suffix {f : QueryInfo → RunOutcome} {s t : PoolState}
    (h : PoolReaches f s t) : t.queue.IsSuffix s.queue := by
  have h' : Relation.ReflTransGen (PoolStep f) s t := h
  clear h
  induction h' with
  | refl => exact List.suffix_refl _
  | tail _ hstep ih => exact (poolStep_suffix hstep).trans ih

/-- Sequential schedule: taking and finishing one descriptor at a time
drains any queue, so a complete pooled execution always exists and can
produce the outcomes in input order. -/
theorem pool_seq (f : QueryInfo → RunOutcome) (qs : List QueryInfo) :
    ∀ res : List RunOutcome,
      PoolReaches f ⟨qs, [], res⟩ ⟨[], [], res ++ qs.map f⟩ := by
  induction qs with
  | nil => intro res; simpa using Relation.ReflTransGen.refl
  | cons q rest ih =>
      intro res
      have h1 : PoolStep f ⟨q :: rest, [], res⟩ ⟨rest, [q], res⟩ :=
        PoolStep.take q rest [] res (by simp [N_WORKERS])
      have h2 : PoolStep f ⟨rest, [q], res⟩ ⟨rest, [], res ++ [f q]⟩ :=
        PoolStep.finish rest [] q [] res
      refine Relation.ReflTransGen.head h1
        (Relation.ReflTransGen.head h2 ?_)
      have h3 := ih (res ++ [f q])
      simpa [List.append_assoc] using h3

/-- A complete pooled run with the outcomes in input order. -/
theorem poolComplete_map (f : QueryInfo → RunOutcome)
    (qs : List QueryInfo) : PoolComplete f qs (qs.map f) :=
  ⟨⟨[], [], [] ++ qs.map f⟩, pool_seq f qs [], rfl, rfl, by simp⟩

/-! Bridging lemmas between the loop and the runner's return value. -/

theorem send_eq_done (qi : QueryInfo) (outcomes : List ReqOutcome)
    (r : JVal) (urls : List String) (rc : Nat)
    (h : runLoop qi.query outcomes initState [] = RunOutcome.done r urls rc) :
    send_urlib_request_async qi outcomes
      = RunOutcome.done (wrapName qi.name r) urls rc := by
  unfold send_urlib_request_async
  rw [h]

theorem send_eq_pending (qi : QueryInfo) (outcomes : List ReqOutcome)
    (st : RunState) (urls : List String)
    (h : runLoop qi.query outcomes initState []
      = RunOutcome.pending st urls) :
    send_urlib_request_async qi outcomes = RunOutcome.pending st urls := by
  unfold send_urlib_request_async
  rw [h]

/-! Claim theorems. -/

/-- C1: the claim that transient/malformed errors are retried a bounded
number of times and then produce an explicit reported failure is FALSE of
the code.  The bare `except: error = 0` (scraper.py lines 206-207) swallows
every request error: an error on the first request silently resolves the
descriptor to the initial `[]` — indistinguishable from a genuine empty
success — and an error on any later request replays the same
URL (base query + unchanged token) without bound: after any number `n` of
consecutive errors the loop is still pending on the same token, having
reissued the identical URL `n` times. -/
theorem C1_error_swallowed_not_retried :
    (send_urlib_request_async ⟨"Q", none⟩ [ReqOutcome.err]
      = RunOutcome.done (JVal.arr []) ["Q"] 1) ∧
    (∀ n : Nat,
      send_urlib_request_async ⟨"Q", none⟩
          (ReqOutcome.ok (JVal.arr []) (some "T")
            :: List.replicate n ReqOutcome.err)
        = RunOutcome.pending ⟨JVal.arr [], 1 + n, some "T"⟩
            ("Q" :: List.replicate n ("Q" ++ "T"))) := by
  refine ⟨rfl, fun n => ?_⟩
  apply send_eq_pending
  have hstep : runLoop "Q"
      (ReqOutcome.ok (JVal.arr []) (some "T")
        :: List.replicate n ReqOutcome.err) initState []
      = runLoop "Q" (List.replicate n ReqOutcome.err)
          ⟨JVal.arr [], 1, some "T"⟩ ["Q"] := by
    rw [runLoop_cons_continue _ _ _ _ _ (by simp [initState])]
    rfl
  rw [hstep, runLoop_err_replay]
  rfl

/-- C2: the result collection returned by `handle_queries` always has
exactly one entry per input descriptor, in both the direct and the pooled
branch. -/
theorem C2_result_cardinality (f : QueryInfo → RunOutcome)
    (queries : List QueryInfo) (results : List RunOutcome)
    (h : HandleQueries f queries results) :
    results.length = queries.length := by
  obtain ⟨-, h2⟩ := h
  by_cases hc : queries.length ≤ N_MAX_WORKERS
  · rw [if_pos hc] at h2
    rw [h2, List.length_map]
  · rw [if_neg hc] at h2
    rw [(poolComplete_perm h2).length_eq, List.length_map]

/-- Witness for C2, instantiating Scenario B: 250 descriptors against the
ceiling of 200 go through the pooled branch and return exactly 250
results. -/
theorem C2_result_cardinality_witness :
    HandleQueries oneShotRunner (List.replicate 250 ⟨"Q", none⟩)
        ((List.replicate 250 (⟨"Q", none⟩ : QueryInfo)).map oneShotRunner) ∧
    ((List.replicate 250 (⟨"Q", none⟩ : QueryInfo)).map oneShotRunner).length
      = (List.replicate 250 (⟨"Q", none⟩ : QueryInfo)).length ∧
    ((List.replicate 250 (⟨"Q", none⟩ : QueryInfo)).map oneShotRunner).length
      = 250 := by
  have hq : HandleQueries oneShotRunner (List.replicate 250 ⟨"Q", none⟩)
      ((List.replicate 250 (⟨"Q", none⟩ : QueryInfo)).map oneShotRunner) := by
    constructor
    · intro q hq
      rw [List.eq_of_mem_replicate hq]
      rfl
    · rw [if_neg (by rw [List.length_replicate]; decide)]
      exact poolComplete_map _ _
  refine ⟨hq, C2_result_cardinality _ _ _ hq, ?_⟩
  rw [C2_result_cardinality _ _ _ hq, List.length_replicate]

/-- C3: on a descriptor whose handler returns tokens `t1 … t(k-1)` and then
`None`, the runner issues exactly `k` requests in order: the base query
first, then the base query concatenated with the token of the immediately
preceding response. -/
theorem C3_request_sequence (q : String) (name : Option String)
    (ps : List JVal) (ts : List String) (h : ps.length = ts.length + 1) :
    ∃ v, send_urlib_request_async ⟨q, name⟩ (okOutcomes ps ts)
      = RunOutcome.done v (q :: ts.map (fun t => q ++ t)) ps.length := by
  obtain ⟨v, hv⟩ :=
    runLoop_okOutcomes_trace q ts ps initState [] h (by simp [initState])
  refine ⟨wrapName name v, ?_⟩
  have hs := send_eq_done ⟨q, name⟩ (okOutcomes ps ts) _ _ _ hv
  rw [hs]
  simp [initState, currQuery]

/-- Witness for C3: two pages with one continuation token issue exactly the
two requests `Q` and `QT`. -/
theorem C3_request_sequence_witness :
    ([JVal.arr [], JVal.arr []] : List JVal).length
      = (["T"] : List String).length + 1 ∧
    ∃ v, send_urlib_request_async ⟨"Q", none⟩
        (okOutcomes [JVal.arr [], JVal.arr []] ["T"])
      = RunOutcome.done v ["Q", "QT"] 2 := by
  refine ⟨by simp, ?_⟩
  have h := C3_request_sequence "Q" none [JVal.arr [], JVal.arr []] ["T"]
    (by simp)
  simpa using h

/-- C4: strategy selection by count.  The constants are 200 and 50; at or
below the ceiling the scheduler gathers one runner per descriptor and
returns their outcomes in input order; above it, the result is a complete
run of the worker pool; and along any pooled execution at most `N_WORKERS`
descriptors are ever in flight, the pending queue is always a suffix of
the input (FIFO consumption from the front), and queue + in-flight +
appended outcomes account for exactly the input descriptors. -/
theorem C4_strategy_selection (f : QueryInfo → RunOutcome)
    (queries : List QueryInfo) (results : List RunOutcome)
    (h : HandleQueries f queries results) :
    (N_MAX_WORKERS = 200 ∧ N_WORKERS = 50) ∧
    (queries.length ≤ N_MAX_WORKERS → results = queries.map f) ∧
    (¬queries.length ≤ N_MAX_WORKERS → PoolComplete f queries results) ∧
    (∀ s : PoolState, PoolReaches f (poolInit queries) s →
      s.inFlight.length ≤ N_WORKERS ∧ s.queue.IsSuffix queries ∧
      (↑(s.queue.map f) + ↑(s.inFlight.map f) + ↑s.results
          : Multiset RunOutcome) = ↑(queries.map f)) := by
  obtain ⟨-, h2⟩ := h
  refine ⟨⟨rfl, rfl⟩, ?_, ?_, ?_⟩
  · intro hc; rwa [if_pos hc] at h2
  · intro hc; rwa [if_neg hc] at h2
  · intro s hs
    refine ⟨poolReaches_inFlight hs (by simp [poolInit]),
      poolReaches_suffix hs, ?_⟩
    have hinv := poolReaches_multiset hs
    simpa [poolInit] using hinv

/-- Witness for C4, direct branch: a single descriptor is at or below the
ceiling and its result list is the mapped outcome. -/
theorem C4_strategy_selection_witness :
    HandleQueries oneShotRunner [⟨"Q", none⟩] [oneShotRunner ⟨"Q", none⟩] ∧
    (([⟨"Q", none⟩] : List QueryInfo).length ≤ N_MAX_WORKERS →
      [oneShotRunner ⟨"Q", none⟩]
        = ([⟨"Q", none⟩] : List QueryInfo).map oneShotRunner) := by
  have hq : HandleQueries oneShotRunner [⟨"Q", none⟩]
      [oneShotRunner ⟨"Q", none⟩] := by
    constructor
    · intro q hmem
      rw [List.mem_singleton] at hmem
      subst hmem
      rfl
    · rw [if_pos (by decide)]
      rfl
  exact ⟨hq, (C4_strategy_selection _ _ _ hq).2.1⟩

/-- C5: merge by shape.  A run whose payloads are all lists accumulates
their ordered concatenation; a run whose payloads are all dicts
accumulates their left-to-right key union, later keys overwriting
earlier ones. -/
theorem C5_merge_by_shape (q : String) (l0 : List JVal)
    (ls : List (List JVal)) (ts : List String)
    (d0 : List (String × JVal)) (ds : List (List (String × JVal)))
    (us : List String)
    (h1 : ls.length = ts.length) (h2 : ds.length = us.length) :
    (∃ urls rc, send_urlib_request_async ⟨q, none⟩
        (okOutcomes ((l0 :: ls).map JVal.arr) ts)
      = RunOutcome.done (JVal.arr (flatten (l0 :: ls))) urls rc) ∧
    (∃ urls rc, send_urlib_request_async ⟨q, none⟩
        (okOutcomes ((d0 :: ds).map JVal.obj) us)
      = RunOutcome.done (JVal.obj (ds.foldl dictUnion d0)) urls rc) := by
  constructor
  · cases ts with
    | nil =>
        cases ls with
        | cons l1 ls' => simp at h1
        | nil =>
            refine ⟨[q], 1, ?_⟩
            have hr : runLoop q (okOutcomes ([l0].map JVal.arr) [])
                initState [] = RunOutcome.done (JVal.arr l0) [q] 1 := by
              rw [show okOutcomes ([l0].map JVal.arr) []
                    = [ReqOutcome.ok (JVal.arr l0) none] from rfl,
                runLoop_cons_continue _ _ _ _ _ (by simp [initState]),
                runLoop_exit _ _ _ _ rfl (by simp [applyOutcome, initState])]
              rfl
            rw [send_eq_done ⟨q, none⟩ _ _ _ _ hr]
            simp [flatten, wrapName]
    | cons t ts' =>
        cases ls with
        | nil => simp at h1
        | cons l1 ls' =>
            obtain ⟨u', r', hr⟩ := runLoop_okOutcomes_arr q ts' (l1 :: ls')
              t l0 0 ([] ++ [currQuery q none]) (by simpa using h1)
            refine ⟨u', r', ?_⟩
            have hfull : runLoop q
                (okOutcomes ((l0 :: l1 :: ls').map JVal.arr) (t :: ts'))
                initState []
                = RunOutcome.done
                    (JVal.arr (l0 ++ flatten (l1 :: ls'))) u' r' := by
              rw [show okOutcomes ((l0 :: l1 :: ls').map JVal.arr) (t :: ts')
                    = ReqOutcome.ok (JVal.arr l0) (some t)
                        :: okOutcomes ((l1 :: ls').map JVal.arr) ts'
                    from rfl,
                runLoop_cons_continue _ _ _ _ _ (by simp [initState])]
              exact hr
            rw [send_eq_done ⟨q, none⟩ _ _ _ _ hfull]
            simp [flatten, wrapName]
  · cases us with
    | nil =>
        cases ds with
        | cons d1 ds' => simp at h2
        | nil =>
            refine ⟨[q], 1, ?_⟩
            have hr : runLoop q (okOutcomes ([d0].map JVal.obj) [])
                initState [] = RunOutcome.done (JVal.obj d0) [q] 1 := by
              rw [show okOutcomes ([d0].map JVal.obj) []
                    = [ReqOutcome.ok (JVal.obj d0) none] from rfl,
                runLoop_cons_continue _ _ _ _ _ (by simp [initState]),
                runLoop_exit _ _ _ _ rfl (by simp [applyOutcome, initState])]
              rfl
            rw [send_eq_done ⟨q, none⟩ _ _ _ _ hr]
            simp [wrapName]
    | cons u us' =>
        cases ds with
        | nil => simp at h2
        | cons d1 ds' =>
            obtain ⟨u', r', hr⟩ := runLoop_okOutcomes_obj q us' (d1 :: ds')
              u d0 0 ([] ++ [currQuery q none]) (by simpa using h2)
            refine ⟨u', r', ?_⟩
            have hfull : runLoop q
                (okOutcomes ((d0 :: d1 :: ds').map JVal.obj) (u :: us'))
                initState []
                = RunOutcome.done
                    (JVal.obj ((d1 :: ds').foldl dictUnion d0)) u' r' := by
              rw [show okOutcomes ((d0 :: d1 :: ds').map JVal.obj) (u :: us')
                    = ReqOutcome.ok (JVal.obj d0) (some u)
                        :: okOutcomes ((d1 :: ds').map JVal.obj) us'
                    from rfl,
                runLoop_cons_continue _ _ _ _ _ (by simp [initState])]
              exact hr
            rw [send_eq_done ⟨q, none⟩ _ _ _ _ hfull]
            simp [wrapName]

/-- Witness for C5, instantiating the spec's two examples: list chunks
`[a, b]` then `[c]` accumulate to `[a, b, c]`, and dict chunks `{"x": 1}`
then `{"x": 2, "y": 3}` accumulate to `{"x": 2, "y": 3}`. -/
theorem C5_merge_by_shape_witness :
    ([[JVal.str "c"]] : List (List JVal)).length
        = (["T"] : List String).length ∧
    ([[("x", JVal.int 2), ("y", JVal.int 3)]]
        : List (List (String × JVal))).length
        = (["T"] : List String).length ∧
    (∃ urls rc, send_urlib_request_async ⟨"Q", none⟩
        (okOutcomes
          ([[JVal.str "a", JVal.str "b"], [JVal.str "c"]].map JVal.arr)
          ["T"])
      = RunOutcome.done
          (JVal.arr [JVal.str "a", JVal.str "b", JVal.str "c"]) urls rc) ∧
    (∃ urls rc, send_urlib_request_async ⟨"Q", none⟩
        (okOutcomes
          ([[("x", JVal.int 1)],
            [("x", JVal.int 2), ("y", JVal.int 3)]].map JVal.obj)
          ["T"])
      = RunOutcome.done
          (JVal.obj [("x", JVal.int 2), ("y", JVal.int 3)]) urls rc) := by
  have h := C5_merge_by_shape "Q" [JVal.str "a", JVal.str "b"]
    [[JVal.str "c"]] ["T"] [("x", JVal.int 1)]
    [[("x", JVal.int 2), ("y", JVal.int 3)]] ["T"] rfl rfl
  refine ⟨rfl, rfl, ?_, ?_⟩
  · have h1 := h.1
    simpa [flatten] using h1
  · have h2 := h.2
    simpa [dictUnion, dictInsert] using h2

/-- C6: the claim that a payload whose shape conflicts with the
established result shape raises a fatal `LogicError` is FALSE of the code:
the merge's `AttributeError`/`TypeError` is swallowed by the bare `except`
(scraper.py line 206), the mismatched payload is silently dropped, and the
run continues with the mismatched response's continuation token and
terminates as an apparent success.  Concretely: list page, then dict page
with token `U`, then list page — the run completes with value
`[a, b]`, having issued all three requests. -/
theorem C6_shape_mismatch_swallowed :
    send_urlib_request_async ⟨"Q", none⟩
        [ReqOutcome.ok (JVal.arr [JVal.str "a"]) (some "T"),
         ReqOutcome.ok (JVal.obj [("x", JVal.int 1)]) (some "U"),
         ReqOutcome.ok (JVal.arr [JVal.str "b"]) none]
      = RunOutcome.done (JVal.arr [JVal.str "a", JVal.str "b"])
          ["Q", "QT", "QU"] 3 := rfl

/-- C7: direct mode preserves 1:1 input-order correspondence; pooled mode
guarantees completeness (a permutation of the per-descriptor outcomes) but
not order: there is a pooled run whose result list differs from the
input-ordered one. -/
theorem C7_ordering (f : QueryInfo → RunOutcome) (queries : List QueryInfo)
    (results : List RunOutcome) (h : HandleQueries f queries results) :
    (queries.length ≤ N_MAX_WORKERS →
      ∀ i, ∀ hi : i < queries.length,
        results[i]? = some (f queries[i])) ∧
    (¬queries.length ≤ N_MAX_WORKERS → results.Perm (queries.map f)) ∧
    (∃ (g : QueryInfo → RunOutcome) (qs : List QueryInfo)
        (rs : List RunOutcome),
      HandleQueries g qs rs ∧ ¬qs.length ≤ N_MAX_WORKERS ∧
        rs ≠ qs.map g) := by
  obtain ⟨-, h2⟩ := h
  refine ⟨?_, ?_, ?_⟩
  · intro hc i hi
    rw [if_pos hc] at h2
    subst h2
    rw [List.getElem?_map, List.getElem?_eq_getElem hi]
    rfl
  · intro hc
    rw [if_neg hc] at h2
    exact poolComplete_perm h2
  · refine ⟨strRunner,
      ⟨"A", none⟩ :: ⟨"B", none⟩ :: List.replicate 199 ⟨"A", none⟩,
      strRunner ⟨"B", none⟩ :: strRunner ⟨"A", none⟩
        :: (List.replicate 199 (⟨"A", none⟩ : QueryInfo)).map strRunner,
      ⟨fun q _ => rfl, ?_⟩, ?_, ?_⟩
    · rw [if_neg (by rw [List.length_cons, List.length_cons,
        List.length_replicate]; decide)]
      refine ⟨⟨[], [],
        [strRunner ⟨"B", none⟩, strRunner ⟨"A", none⟩]
          ++ (List.replicate 199 (⟨"A", none⟩ : QueryInfo)).map strRunner⟩,
        ?_, rfl, rfl, rfl⟩
      have s1 : PoolStep strRunner
          ⟨⟨"A", none⟩ :: ⟨"B", none⟩ :: List.replicate 199 ⟨"A", none⟩,
            [], []⟩
          ⟨⟨"B", none⟩ :: List.replicate 199 ⟨"A", none⟩,
            [⟨"A", none⟩], []⟩ :=
        PoolStep.take _ _ [] [] (by decide)
      have s2 : PoolStep strRunner
          ⟨⟨"B", none⟩ :: List.replicate 199 ⟨"A", none⟩,
            [⟨"A", none⟩], []⟩
          ⟨List.replicate 199 ⟨"A", none⟩,
            [⟨"A", none⟩, ⟨"B", none⟩], []⟩ :=
        PoolStep.take _ _ [⟨"A", none⟩] [] (by decide)
      have s3 : PoolStep strRunner
          ⟨List.replicate 199 ⟨"A", none⟩,
            [⟨"A", none⟩, ⟨"B", none⟩], []⟩
          ⟨List.replicate 199 ⟨"A", none⟩,
            [⟨"A", none⟩], [strRunner ⟨"B", none⟩]⟩ :=
        PoolStep.finish _ [⟨"A", none⟩] ⟨"B", none⟩ [] []
      have s4 : PoolStep strRunner
          ⟨List.replicate 199 ⟨"A", none⟩,
            [⟨"A", none⟩], [strRunner ⟨"B", none⟩]⟩
          ⟨List.replicate 199 ⟨"A", none⟩, [],
            [strRunner ⟨"B", none⟩, strRunner ⟨"A", none⟩]⟩ :=
        PoolStep.finish _ [] ⟨"A", none⟩ [] [strRunner ⟨"B", none⟩]
      exact Relation.ReflTransGen.head s1
        (Relation.ReflTransGen.head s2
          (Relation.ReflTransGen.head s3
            (Relation.ReflTransGen.head s4
              (pool_seq strRunner _ _))))
    · rw [List.length_cons, List.length_cons, List.length_replicate]
      decide
    · intro heq
      rw [List.map_cons, List.map_cons] at heq
      injection heq with hhead _
      have : "B" = "A" := by
        have h2 := congrArg (fun o => match o with
          | RunOutcome.done (JVal.str s) _ _ => s
          | _ => "") hhead
        simp [strRunner] at h2
      exact absurd this (by decide)

/-- Witness for C7, direct branch: two descriptors, the 0th result is the
0th descriptor's outcome. -/
theorem C7_ordering_witness :
    HandleQueries strRunner [⟨"A", none⟩, ⟨"B", none⟩]
        (([⟨"A", none⟩, ⟨"B", none⟩] : List QueryInfo).map strRunner) ∧
    (([⟨"A", none⟩, ⟨"B", none⟩] : List QueryInfo).length
        ≤ N_MAX_WORKERS) ∧
    (([⟨"A", none⟩, ⟨"B", none⟩] : List QueryInfo).map strRunner)[0]?
      = some (strRunner ⟨"A", none⟩) := by
  have hq : HandleQueries strRunner [⟨"A", none⟩, ⟨"B", none⟩]
      (([⟨"A", none⟩, ⟨"B", none⟩] : List QueryInfo).map strRunner) :=
    ⟨fun q _ => rfl, by rw [if_pos (by decide)]⟩
  refine ⟨hq, by decide, ?_⟩
  rw [(C7_ordering _ _ _ hq).1 (by decide) 0 (by decide)]
  rfl

/-- C8: when the loop completes (the handler returned a null continuation
token), a set `resultName` wraps the accumulated result as the
single-entry mapping `{resultName: result}`, and a null `resultName`
returns the accumulated result unwrapped. -/
theorem C8_resultName_wrapping (q : String) (name : Option String)
    (outcomes : List ReqOutcome) (r : JVal) (urls : List String) (rc : Nat)
    (h : runLoop q outcomes initState [] = RunOutcome.done r urls rc) :
    send_urlib_request_async ⟨q, name⟩ outcomes
      = RunOutcome.done (wrapName name r) urls rc ∧
    (∀ n, wrapName (some n) r = JVal.obj [(n, r)]) ∧
    wrapName none r = r :=
  ⟨send_eq_done ⟨q, name⟩ outcomes r urls rc h, fun _ => rfl, rfl⟩

/-- Witness for C8: a completed one-page run with `resultName = "N"`
returns `{"N": []}`. -/
theorem C8_resultName_wrapping_witness :
    (runLoop "Q" [ReqOutcome.ok (JVal.arr []) none] initState []
      = RunOutcome.done (JVal.arr []) ["Q"] 1) ∧
    send_urlib_request_async ⟨"Q", some "N"⟩
        [ReqOutcome.ok (JVal.arr []) none]
      = RunOutcome.done (JVal.obj [("N", JVal.arr [])]) ["Q"] 1 := by
  refine ⟨rfl, ?_⟩
  have h := (C8_resultName_wrapping "Q" (some "N")
    [ReqOutcome.ok (JVal.arr []) none] (JVal.arr []) ["Q"] 1 rfl).1
  simpa [wrapName] using h

/-- C9: with a fixed descriptor list and a deterministic per-descriptor
outcome, any two results of `handle_queries` are permutations of each
other — equal as multisets (hence as sets), independent of worker
interleaving. -/
theorem C9_determinism (f : QueryInfo → RunOutcome)
    (queries : List QueryInfo) (r1 r2 : List RunOutcome)
    (h1 : HandleQueries f queries r1) (h2 : HandleQueries f queries r2) :
    r1.Perm r2 := by
  obtain ⟨-, h1⟩ := h1
  obtain ⟨-, h2⟩ := h2
  by_cases hc : queries.length ≤ N_MAX_WORKERS
  · rw [if_pos hc] at h1 h2
    rw [h1, h2]
  · rw [if_neg hc] at h1 h2
    exact (poolComplete_perm h1).trans (poolComplete_perm h2).symm

/-- Witness for C9: a direct-mode run is a permutation of itself. -/
theorem C9_determinism_witness :
    HandleQueries strRunner [⟨"A", none⟩] [strRunner ⟨"A", none⟩] ∧
    List.Perm [strRunner ⟨"A", none⟩] [strRunner ⟨"A", none⟩] := by
  have hq : HandleQueries strRunner [⟨"A", none⟩]
      [strRunner ⟨"A", none⟩] :=
    ⟨fun q _ => rfl, by rw [if_pos (by decide)]; rfl⟩
  exact ⟨hq, C9_determinism _ _ _ _ hq hq⟩

/-! Properties of `pyRange` / `chunks` / `chunk_list` / `flatten`
(claim C10). -/

theorem pyRange_pos (s e step : Nat) (h1 : 0 < step) (h2 : s < e) :
    pyRange s e step = s :: pyRange (s + step) e step := by
  rw [pyRange]
  exact dif_pos ⟨h1, h2⟩

theorem pyRange_neg (s e step : Nat) (h : ¬(0 < step ∧ s < e)) :
    pyRange s e step = [] := by
  rw [pyRange]
  exact dif_neg h

/-- Shifting both endpoints of a range shifts its elements. -/
theorem pyRange_shift (step k s e : Nat) :
    pyRange (s + k) (e + k) step
      = (pyRange s e step).map (fun x => x + k) := by
  by_cases h : 0 < step ∧ s < e
  · rw [pyRange_pos s e step h.1 h.2,
      pyRange_pos (s + k) (e + k) step h.1 (by omega), List.map_cons]
    have ih := pyRange_shift step k (s + step) e
    rw [show s + step + k = s + k + step by omega] at ih
    rw [ih]
  · rw [pyRange_neg s e step h,
      pyRange_neg (s + k) (e + k) step (by omega), List.map_nil]
termination_by e - s
decreasing_by omega

theorem chunks_nil {α : Type} (n : Nat) : chunks ([] : List α) n = [] := by
  unfold chunks
  rw [pyRange_neg 0 ([] : List α).length n (by simp)]
  rfl

/-- Unfolding `chunks` one slice at a time. -/
theorem chunks_cons {α : Type} (lst : List α) (n : Nat) (hn : 0 < n)
    (hl : lst ≠ []) :
    chunks lst n = lst.take n :: chunks (lst.drop n) n := by
  unfold chunks
  have hlen : 0 < lst.length := List.length_pos.mpr hl
  rw [pyRange_pos 0 lst.length n hn hlen, List.map_cons, List.drop_zero,
    List.length_drop]
  congr 1
  by_cases hc : n < lst.length
  · have he : lst.length = (lst.length - n) + n := by omega
    conv_lhs => rw [he]
    rw [show (0:Nat) + n = 0 + n from rfl,
      pyRange_shift n n 0 (lst.length - n), List.map_map]
    have hfun : ((fun i => (lst.drop i).take n) ∘ (fun x => x + n))
        = fun i => ((lst.drop n).drop i).take n := by
      funext i
      simp [List.drop_drop, Nat.add_comm]
    rw [hfun]
  · rw [pyRange_neg (0 + n) lst.length n (by omega),
      pyRange_neg 0 (lst.length - n) n (by omega)]
    rfl

/-- Concatenating the chunks gives back the original list. -/
theorem flatten_chunks {α : Type} (lst : List α) (n : Nat) (hn : 0 < n) :
    flatten (chunks lst n) = lst := by
  by_cases h : lst = []
  · subst h
    rw [chunks_nil]
    rfl
  · rw [chunks_cons lst n hn h]
    have ih := flatten_chunks (lst.drop n) n hn
    simp only [flatten] at ih ⊢
    rw [List.flatten_cons, ih]
    exact List.take_append_drop n lst
termination_by lst.length
decreasing_by
  have hp : 0 < lst.length := List.length_pos.mpr h
  simp only [List.length_drop]
  omega

/-- Every chunk is nonempty with length at most `n`. -/
theorem chunks_mem {α : Type} (lst : List α) (n : Nat) (hn : 0 < n) :
    ∀ c ∈ chunks lst n, c ≠ [] ∧ c.length ≤ n := by
  by_cases h : lst = []
  · subst h
    rw [chunks_nil]
    intro c hc
    simp at hc
  · rw [chunks_cons lst n hn h]
    intro c hc
    rw [List.mem_cons] at hc
    rcases hc with rfl | hc
    · constructor
      · have hlp : 0 < (lst.take n).length := by
          rw [List.length_take]
          have := List.length_pos.mpr h
          omega
        exact List.length_pos.mp hlp
      · rw [List.length_take]
        omega
    · exact chunks_mem (lst.drop n) n hn c hc
termination_by lst.length
decreasing_by
  have hp : 0 < lst.length := List.length_pos.mpr h
  simp only [List.length_drop]
  omega

/-- Every chunk except possibly the last has length exactly `n`. -/
theorem chunks_dropLast {α : Type} (lst : List α) (n : Nat) (hn : 0 < n) :
    ∀ c ∈ (chunks lst n).dropLast, c.length = n := by
  by_cases h : lst = []
  · subst h
    rw [chunks_nil]
    intro c hc
    simp at hc
  · rw [chunks_cons lst n hn h]
    by_cases h2 : chunks (lst.drop n) n = []
    · rw [h2]
      intro c hc
      simp at hc
    · obtain ⟨c2, rest, hrep⟩ := List.exists_cons_of_ne_nil h2
      rw [hrep]
      intro c hc
      rw [show (lst.take n :: c2 :: rest).dropLast
            = lst.take n :: (c2 :: rest).dropLast from rfl,
        List.mem_cons] at hc
      rcases hc with rfl | hc
      · have hd : lst.drop n ≠ [] := by
          intro hdn
          rw [hdn, chunks_nil] at h2
          exact h2 rfl
        have hlt : n < lst.length := by
          have := List.length_pos.mpr hd
          rw [List.length_drop] at this
          omega
        rw [List.length_take]
        omega
      · have ih := chunks_dropLast (lst.drop n) n hn
        rw [hrep] at ih
        exact ih c hc
termination_by lst.length
decreasing_by
  have hp : 0 < lst.length := List.length_pos.mpr h
  simp only [List.length_drop]
  omega

/-- Sanity anchor: a concrete chunking. -/
theorem chunks_example :
    chunks ([1, 2, 3, 4, 5] : List Nat) 2 = [[1, 2], [3, 4], [5]] := by
  rw [chunks_cons ([1, 2, 3, 4, 5] : List Nat) 2 (by decide) (by decide),
    show ([1, 2, 3, 4, 5] : List Nat).take 2 = [1, 2] from rfl,
    show ([1, 2, 3, 4, 5] : List Nat).drop 2 = [3, 4, 5] from rfl,
    chunks_cons ([3, 4, 5] : List Nat) 2 (by decide) (by decide),
    show ([3, 4, 5] : List Nat).take 2 = [3, 4] from rfl,
    show ([3, 4, 5] : List Nat).drop 2 = [5] from rfl,
    chunks_cons ([5] : List Nat) 2 (by decide) (by decide),
    show ([5] : List Nat).take 2 = [5] from rfl,
    show ([5] : List Nat).drop 2 = ([] : List Nat) from rfl,
    chunks_nil]

/-- C10: for every list and chunk size `n > 0`, flattening the chunks
restores the list; every chunk is nonempty with length at most `n`; every
chunk but possibly the last has length exactly `n`; and `chunk_list` in
utils.py computes the same chunking as `chunks` in scraper.py. -/
theorem C10_chunks_properties {α : Type} (lst : List α) (n : Nat)
    (hn : 0 < n) :
    flatten (chunks lst n) = lst ∧
    (∀ c ∈ chunks lst n, c ≠ [] ∧ c.length ≤ n) ∧
    (∀ c ∈ (chunks lst n).dropLast, c.length = n) ∧
    chunk_list lst n = chunks lst n :=
  ⟨flatten_chunks lst n hn, chunks_mem lst n hn,
   chunks_dropLast lst n hn, rfl⟩

/-- Witness for C10 at `lst = [1, 2, 3, 4, 5]`, `n = 2`. -/
theorem C10_chunks_properties_witness :
    0 < 2 ∧
    (flatten (chunks ([1, 2, 3, 4, 5] : List Nat) 2) = [1, 2, 3, 4, 5] ∧
     (∀ c ∈ chunks ([1, 2, 3, 4, 5] : List Nat) 2,
        c ≠ [] ∧ c.length ≤ 2) ∧
     (∀ c ∈ (chunks ([1, 2, 3, 4, 5] : List Nat) 2).dropLast,
        c.length = 2) ∧
     chunk_list ([1, 2, 3, 4, 5] : List Nat) 2
       = chunks ([1, 2, 3, 4, 5] : List Nat) 2) :=
  ⟨by decide, C10_chunks_properties ([1, 2, 3, 4, 5] : List Nat) 2
    (by decide)⟩

end Scraper
